import Mathlib

/-!
Verification of the axe-manager client: a shallow embedding of the mock
record store (`mockAxeService.ts`), the instrument search hook
(`useBondInstruments.ts`), and the reconciliation layer of the draft-staging
view variants (`AxeManagerV4.tsx` / `AxeManagerV6.tsx`), together with
theorems settling the specification claims about them.
-/

namespace Axes

/-- Side of an axe: `'Bid' | 'Offer'` from `types/index.ts`. -/
inductive AxeSide
  | Bid
  | Offer
  deriving DecidableEq

/-- Status of an axe: `'ACTIVE' | 'PAUSED' | 'BLOCKED'` from `types/index.ts`. -/
inductive AxeStatus
  | ACTIVE
  | PAUSED
  | BLOCKED
  deriving DecidableEq

/-- `BondInstrument` from `types/index.ts`. -/
structure BondInstrument where
  isin : String
  description : String
  maturity : String
  issuer : String
  deriving DecidableEq

/-- `Axe` from `types/index.ts`; `lastUpdate` (an ISO timestamp string in the
source) is modelled as a natural-number clock value. -/
structure Axe where
  id : String
  isin : String
  description : String
  maturity : String
  issuer : String
  side : AxeSide
  quantity : Int
  status : AxeStatus
  lastUpdate : Nat
  deriving DecidableEq

/-- `CreateOrUpdateAxeRequest` from `types/index.ts`. -/
structure CreateOrUpdateAxeRequest where
  id : Option String
  isin : String
  side : AxeSide
  quantity : Int
  deriving DecidableEq

/-- Errors thrown by `MockAxeService` (`mockAxeService.ts`): the
`Instrument not found: ...` and `Axe not found: ...` exceptions. -/
inductive ServiceError
  | instrumentNotFound (isin : String)
  | axeNotFound (id : String)
  deriving DecidableEq

/-- State of `MockAxeService`: the `axes` map (insertion-ordered, unique ids,
like a JS `Map`) and, for each registered listener, the snapshot it last
received (the listeners themselves are functions in the source; here a
listener is represented by the record list it holds). -/
structure ServiceState where
  axes : List Axe
  subs : List (List Axe)
  deriving DecidableEq

/-- The empty store: `new MockAxeService()`. -/
def initServiceState : ServiceState := { axes := [], subs := [] }

/-- `getAxesArray`: `Array.from(this.axes.values())`. -/
def getAxesArray (s : ServiceState) : List Axe := s.axes

/-- `broadcast`: sends the current full record list to every listener. -/
def broadcast (s : ServiceState) : ServiceState :=
  { s with subs := s.subs.map (fun _ => getAxesArray s) }

/-- `subscribe`: registers a listener and immediately sends it the current
state. -/
def subscribe (s : ServiceState) : ServiceState :=
  { s with subs := s.subs ++ [getAxesArray s] }

/-- The unsubscribe closure returned by `subscribe`: removes one listener. -/
def unsubscribe (i : Nat) (s : ServiceState) : ServiceState :=
  { s with subs := s.subs.eraseIdx i }

/-- `findInstrument`: `mockInstruments.find((i) => i.isin === isin)`. -/
def findInstrument (instruments : List BondInstrument) (isin : String) :
    Option BondInstrument :=
  instruments.find? (fun i => i.isin == isin)

/-- `this.axes.has(id)` on the JS `Map`. -/
def mapHas (axes : List Axe) (id : String) : Bool :=
  axes.any (fun a => a.id == id)

/-- `this.axes.get(id)` on the JS `Map`. -/
def mapGet (axes : List Axe) (id : String) : Option Axe :=
  axes.find? (fun a => a.id == id)

/-- `this.axes.set(id, axe)` on the JS `Map`: an existing key keeps its
position, a new key is appended. -/
def mapSet (axes : List Axe) (a : Axe) : List Axe :=
  if mapHas axes a.id then axes.map (fun x => if x.id = a.id then a else x)
  else axes ++ [a]

/-- `this.axes.delete(id)` on the JS `Map`. -/
def mapDelete (axes : List Axe) (id : String) : List Axe :=
  axes.filter (fun a => a.id != id)

/-- `createOrUpdateAxe` from `mockAxeService.ts`. The fresh identifier that
`uuidv4()` would produce is passed in as `newId`, and `new Date()` as `now`.
`isUpdate` is `!!request.id && this.axes.has(request.id)`: JS truthiness makes
`!!""` false, so an empty-string identifier never counts as an update, while
`request.id ?? uuidv4()` (which tests only null/undefined) still keeps `""`
as the record's id. -/
def createOrUpdateAxe (instruments : List BondInstrument)
    (request : CreateOrUpdateAxeRequest) (newId : String) (now : Nat)
    (s : ServiceState) : Except ServiceError (ServiceState × Axe) :=
  match findInstrument instruments request.isin with
  | none => .error (.instrumentNotFound request.isin)
  | some instrument =>
    let isUpdate := match request.id with
      | some rid => rid != "" && mapHas s.axes rid
      | none => false
    let id := request.id.getD newId
    let existing := if isUpdate then mapGet s.axes id else none
    let axe : Axe :=
      { id := id
        isin := instrument.isin
        description := instrument.description
        maturity := instrument.maturity
        issuer := instrument.issuer
        side := request.side
        quantity := request.quantity
        status := (existing.map Axe.status).getD .ACTIVE
        lastUpdate := now }
    .ok (broadcast { s with axes := mapSet s.axes axe }, axe)

/-- `setStatus` from `mockAxeService.ts`: throws if the id is unknown,
otherwise overwrites the status, refreshes the timestamp and broadcasts. -/
def setStatus (id : String) (status : AxeStatus) (now : Nat)
    (s : ServiceState) : Except ServiceError ServiceState :=
  match mapGet s.axes id with
  | none => .error (.axeNotFound id)
  | some _ =>
    let axes1 := s.axes.map (fun a =>
      if a.id = id then { a with status := status, lastUpdate := now } else a)
    .ok (broadcast { s with axes := axes1 })

/-- `pauseAxe`. -/
def pauseAxe (id : String) (now : Nat) (s : ServiceState) :
    Except ServiceError ServiceState :=
  setStatus id .PAUSED now s

/-- `resumeAxe`. -/
def resumeAxe (id : String) (now : Nat) (s : ServiceState) :
    Except ServiceError ServiceState :=
  setStatus id .ACTIVE now s

/-- `blockAxe`. -/
def blockAxe (id : String) (now : Nat) (s : ServiceState) :
    Except ServiceError ServiceState :=
  setStatus id .BLOCKED now s

/-- `unblockAxe`. -/
def unblockAxe (id : String) (now : Nat) (s : ServiceState) :
    Except ServiceError ServiceState :=
  setStatus id .ACTIVE now s

/-- `deleteAxe` from `mockAxeService.ts`. -/
def deleteAxe (id : String) (s : ServiceState) :
    Except ServiceError ServiceState :=
  if mapHas s.axes id then .ok (broadcast { s with axes := mapDelete s.axes id })
  else .error (.axeNotFound id)

/-- Status of the record currently held under `id`, if any. -/
def statusOf (s : ServiceState) (id : String) : Option AxeStatus :=
  (mapGet s.axes id).map Axe.status

/-- One externally triggered event on the store. -/
inductive ServiceOp
  | subscribeOp
  | unsubscribeOp (i : Nat)
  | createOrUpdate (request : CreateOrUpdateAxeRequest) (newId : String) (now : Nat)
  | pause (id : String) (now : Nat)
  | resume (id : String) (now : Nat)
  | block (id : String) (now : Nat)
  | unblock (id : String) (now : Nat)
  | delete (id : String)

/-- Applies one event; a rejected command leaves the state untouched (the
exception propagates to the caller before any mutation or broadcast). -/
def applyServiceOp (instruments : List BondInstrument) (op : ServiceOp)
    (s : ServiceState) : ServiceState :=
  match op with
  | .subscribeOp => subscribe s
  | .unsubscribeOp i => unsubscribe i s
  | .createOrUpdate request newId now =>
    match createOrUpdateAxe instruments request newId now s with
    | .ok (s1, _) => s1
    | .error _ => s
  | .pause id now => match pauseAxe id now s with | .ok s1 => s1 | .error _ => s
  | .resume id now => match resumeAxe id now s with | .ok s1 => s1 | .error _ => s
  | .block id now => match blockAxe id now s with | .ok s1 => s1 | .error _ => s
  | .unblock id now => match unblockAxe id now s with | .ok s1 => s1 | .error _ => s
  | .delete id => match deleteAxe id s with | .ok s1 => s1 | .error _ => s

/-- Runs a sequence of store events from the empty store. -/
def runService (instruments : List BondInstrument) (ops : List ServiceOp) :
    ServiceState :=
  ops.foldl (fun s op => applyServiceOp instruments op s) initServiceState

/-- Every listener holds exactly the store's current record list. -/
def ListenersInSync (s : ServiceState) : Prop :=
  ∀ held ∈ s.subs, held = getAxesArray s

/-! ### Reconciliation layer of the draft-staging views (V4/V6) -/

/-- One per-row draft: `{ side?, quantity? }` from the `PendingEdits` record
type of `AxeManagerV4.tsx` / `v6/components/types.ts`. -/
structure PendingEdit where
  side : Option AxeSide
  quantity : Option Int
  deriving DecidableEq

/-- The `pendingEdits` object: `axeId -> { side?, quantity? }`, modelled as an
insertion-ordered association list (JS object key order). -/
abbrev PendingEdits := List (String × PendingEdit)

/-- `pendingEdits[id]`. -/
def lookupPE : PendingEdits → String → Option PendingEdit
  | [], _ => none
  | (k, v) :: rest, id => if k = id then some v else lookupPE rest id

/-- Removal of one key: `const { [id]: _, ...rest } = prev`. -/
def erasePE (pe : PendingEdits) (id : String) : PendingEdits :=
  pe.filter (fun p => p.1 != id)

/-- Insertion or overwrite: `{ ...prev, [id]: v }` (an existing key keeps its
position, a new key is appended). -/
def insertPE (pe : PendingEdits) (id : String) (v : PendingEdit) : PendingEdits :=
  if pe.any (fun p => p.1 == id) then
    pe.map (fun p => if p.1 = id then (id, v) else p)
  else pe ++ [(id, v)]

/-- `Object.keys(pendingEdits)`. -/
def peKeys (pe : PendingEdits) : List String := pe.map Prod.fst

/-- The editable fields of the pinned creation row of `AxeManagerV6.tsx`. -/
structure PinnedRow where
  isin : String
  description : String
  maturity : String
  issuer : String
  side : AxeSide
  quantity : Int
  deriving DecidableEq

/-- `DEFAULT_PINNED_ROW` from `v6/components` (data fields only). -/
def DEFAULT_PINNED_ROW : PinnedRow :=
  { isin := "", description := "", maturity := "", issuer := ""
    side := .Bid, quantity := 1000000 }

/-- Local state of one mounted draft-staging view: the `axes` array held by
`useBondAxes` (last confirmed snapshot, optimistically mutated), the
`pendingEdits` map, and the pinned creation row. -/
structure CompState where
  axes : List Axe
  pendingEdits : PendingEdits
  pinnedRow : PinnedRow
  deriving DecidableEq

/-- State right after mount, before the first broadcast is processed. -/
def initCompState : CompState :=
  { axes := [], pendingEdits := [], pinnedRow := DEFAULT_PINNED_ROW }

/-- Overlay of one row: `if (!edits) return axe` else spread with
`edits.side ?? axe.side` and `edits.quantity ?? axe.quantity`. -/
def overlayPendingEdit (a : Axe) : Option PendingEdit → Axe
  | none => a
  | some e => { a with side := e.side.getD a.side, quantity := e.quantity.getD a.quantity }

/-- `displayData` (V4) / the existing-row part of `rowData` (V6): the rendered
row list, pending edits overlaid on the confirmed snapshot. -/
def displayData (s : CompState) : List Axe :=
  s.axes.map (fun a => overlayPendingEdit a (lookupPE s.pendingEdits a.id))

/-- A single cell edit on the `side` or on the `quantity` column. -/
inductive CellEdit
  | side (v : AxeSide)
  | quantity (v : Int)
  deriving DecidableEq

/-- `{ ...existing, [field]: event.newValue }`. -/
def applyCellEdit (e : PendingEdit) : CellEdit → PendingEdit
  | .side v => { e with side := some v }
  | .quantity v => { e with quantity := some v }

/-- `onCellValueChanged` for an existing row (V4/V6): computes the candidate
draft, compares the effective side and quantity against the confirmed record,
and removes the whole entry when both match, else inserts/updates it. -/
def onCellValueChanged (id : String) (edit : CellEdit) (s : CompState) : CompState :=
  match mapGet s.axes id with
  | none => s
  | some serverAxe =>
    let existing := (lookupPE s.pendingEdits id).getD { side := none, quantity := none }
    let updated := applyCellEdit existing edit
    let sideVal := updated.side.getD serverAxe.side
    let qtyVal := updated.quantity.getD serverAxe.quantity
    if sideVal = serverAxe.side ∧ qtyVal = serverAxe.quantity then
      { s with pendingEdits := erasePE s.pendingEdits id }
    else
      { s with pendingEdits := insertPE s.pendingEdits id updated }

/-- `handleSaveRow` (V6): consumes the draft, applies it optimistically,
clears the entry, and returns the issued `createOrUpdateAxe` request (the
command is still in flight in the returned state). -/
def handleSaveRow (id : String) (now : Nat) (s : CompState) :
    CompState × Option CreateOrUpdateAxeRequest :=
  match lookupPE s.pendingEdits id with
  | none => (s, none)
  | some edits =>
    match mapGet s.axes id with
    | none => (s, none)
    | some serverAxe =>
      let updatedSide := edits.side.getD serverAxe.side
      let updatedQty := edits.quantity.getD serverAxe.quantity
      let axes1 := s.axes.map (fun a =>
        if a.id = id then { a with side := updatedSide, quantity := updatedQty, lastUpdate := now }
        else a)
      ({ s with axes := axes1, pendingEdits := erasePE s.pendingEdits id },
       some { id := some id, isin := serverAxe.isin, side := updatedSide, quantity := updatedQty })

/-- `handleRevertRow`: discards the draft without any command. -/
def handleRevertRow (id : String) (s : CompState) : CompState :=
  { s with pendingEdits := erasePE s.pendingEdits id }

/-- `handleDelete`: clears any draft for the row and removes it optimistically
(the delete command is issued alongside). -/
def handleDelete (id : String) (s : CompState) : CompState :=
  { s with pendingEdits := erasePE s.pendingEdits id
           axes := s.axes.filter (fun a => a.id != id) }

/-- The `.catch` branch of `handleDelete`: only a notification is shown; the
local state is left exactly as the optimistic removal left it. -/
def handleDeleteOnError (id : String) (s : CompState) : CompState :=
  let _ := id
  s

/-- `handlePauseResume`: toggles the status optimistically. -/
def handlePauseResume (id : String) (now : Nat) (s : CompState) : CompState :=
  match mapGet s.axes id with
  | none => s
  | some axe =>
    let newStatus : AxeStatus := if axe.status = .PAUSED then .ACTIVE else .PAUSED
    { s with axes := s.axes.map (fun a =>
        if a.id = id then { a with status := newStatus, lastUpdate := now } else a) }

/-- `handleBlockUnblock`: toggles the status optimistically. -/
def handleBlockUnblock (id : String) (now : Nat) (s : CompState) : CompState :=
  match mapGet s.axes id with
  | none => s
  | some axe =>
    let newStatus : AxeStatus := if axe.status = .BLOCKED then .ACTIVE else .BLOCKED
    { s with axes := s.axes.map (fun a =>
        if a.id = id then { a with status := newStatus, lastUpdate := now } else a) }

/-- `updatePinnedRowInstrument`: copies the selected instrument's fields into
the pinned row. -/
def updatePinnedRowInstrument (instrument : BondInstrument) (s : CompState) : CompState :=
  { s with pinnedRow := { s.pinnedRow with
      isin := instrument.isin
      description := instrument.description
      maturity := instrument.maturity
      issuer := instrument.issuer } }

/-- `clearPinnedRow`: resets the pinned row inputs to their defaults. -/
def clearPinnedRow (s : CompState) : CompState :=
  { s with pinnedRow := { s.pinnedRow with
      isin := "", description := "", maturity := "", issuer := ""
      side := .Bid, quantity := 1000000 } }

/-- `handleCreatePinned` (V6): validates the pinned row, optimistically
prepends a full record under a fresh client id, issues the create request
(without id), and resets the pinned row. Returns the issued request. -/
def handleCreatePinned (newId : String) (now : Nat) (s : CompState) :
    CompState × Option CreateOrUpdateAxeRequest :=
  if s.pinnedRow.isin = "" then (s, none)
  else if s.pinnedRow.quantity < 1 then (s, none)
  else
    let optimisticAxe : Axe :=
      { id := newId
        isin := s.pinnedRow.isin
        description := s.pinnedRow.description
        maturity := s.pinnedRow.maturity
        issuer := s.pinnedRow.issuer
        side := s.pinnedRow.side
        quantity := s.pinnedRow.quantity
        status := .ACTIVE
        lastUpdate := now }
    (clearPinnedRow { s with axes := optimisticAxe :: s.axes },
     some { id := none, isin := s.pinnedRow.isin
            side := s.pinnedRow.side, quantity := s.pinnedRow.quantity })

/-- The `.catch` branch of `handleCreatePinned`: removes the optimistically
added record again. -/
def handleCreatePinnedOnError (newId : String) (s : CompState) : CompState :=
  { s with axes := s.axes.filter (fun a => a.id != newId) }

/-- One event handled by a mounted draft-staging view instance. -/
inductive CompOp
  | cellEdit (id : String) (edit : CellEdit)
  | saveRow (id : String) (now : Nat)
  | revertRow (id : String)
  | deleteRow (id : String)
  | deleteRowFailed (id : String)
  | pauseResume (id : String) (now : Nat)
  | blockUnblock (id : String) (now : Nat)
  | selectPinnedInstrument (instrument : BondInstrument)
  | createPinned (newId : String) (now : Nat)
  | createPinnedFailed (newId : String)
  | broadcastArrive (snapshot : List Axe)

/-- Applies one view event to the local state. `broadcastArrive` is the
subscription callback `setAxes([...newAxes])`: it replaces the held snapshot
wholesale and touches nothing else. -/
def applyCompOp : CompOp → CompState → CompState
  | .cellEdit id edit, s => onCellValueChanged id edit s
  | .saveRow id now, s => (handleSaveRow id now s).1
  | .revertRow id, s => handleRevertRow id s
  | .deleteRow id, s => handleDelete id s
  | .deleteRowFailed id, s => handleDeleteOnError id s
  | .pauseResume id now, s => handlePauseResume id now s
  | .blockUnblock id now, s => handleBlockUnblock id now s
  | .selectPinnedInstrument instrument, s => updatePinnedRowInstrument instrument s
  | .createPinned newId now, s => (handleCreatePinned newId now s).1
  | .createPinnedFailed newId, s => handleCreatePinnedOnError newId s
  | .broadcastArrive snapshot, s => { s with axes := snapshot }

/-- Runs a sequence of view events from the freshly mounted state. -/
def runComp (ops : List CompOp) : CompState :=
  ops.foldl (fun s op => applyCompOp op s) initCompState

/-- The pending-edits subset invariant of the spec: every drafted identifier
is present in the held snapshot. -/
def PESubset (s : CompState) : Prop :=
  ∀ id ∈ peKeys s.pendingEdits, id ∈ s.axes.map Axe.id

/-! ### Instrument directory search (`useBondInstruments.ts`) -/

/-- `query.toLowerCase()` on a whole string. -/
def lowerStr (s : String) : String := s.map Char.toLower

/-- `needle` begins the list `hay`. -/
def charsStartWith : List Char → List Char → Bool
  | [], _ => true
  | _ :: _, [] => false
  | n :: ns, h :: hs => n == h && charsStartWith ns hs

/-- `hay.includes(needle)` on character lists. -/
def charsContains (needle : List Char) : List Char → Bool
  | [] => needle.isEmpty
  | c :: rest => charsStartWith needle (c :: rest) || charsContains needle rest

/-- `hay.includes(needle)` on strings. -/
def strContains (hay needle : String) : Bool :=
  charsContains needle.data hay.data

/-- `searchInstruments` from `useBondInstruments.ts`. -/
def searchInstruments (instruments : List BondInstrument) (query : String) :
    List BondInstrument :=
  if query.length < 2 then []
  else
    let lower := lowerStr query
    (instruments.filter (fun i =>
      strContains (lowerStr i.isin) lower || strContains (lowerStr i.description) lower)).take 50

/-- Modelled from the spec's words for comparison: instruments whose code or
description contains the query case-insensitively, capped at 50, empty for
queries shorter than 2 characters. -/
def searchSpec (instruments : List BondInstrument) (query : String) :
    List BondInstrument :=
  if 2 ≤ query.length then
    (instruments.filter (fun i =>
      strContains (lowerStr i.isin) (lowerStr query)
        || strContains (lowerStr i.description) (lowerStr query))).take 50
  else []

/-- Side conditions under which one view event preserves the pending-edits
subset invariant: an incoming broadcast must still carry every currently
drafted identifier, and a create-failure rollback must not remove a row that
carries a draft; every other event is unconditionally safe. -/
def SafeOp (s : CompState) : CompOp → Prop
  | .broadcastArrive snapshot => ∀ id ∈ peKeys s.pendingEdits, id ∈ snapshot.map Axe.id
  | .createPinnedFailed newId => newId ∉ peKeys s.pendingEdits
  | _ => True

/-! ### Concrete fixtures used by counterexamples and witnesses -/

/-- A sample instrument of the reference universe. -/
def instr0 : BondInstrument :=
  { isin := "US0000000000", description := "US Treasury 1% 2030"
    maturity := "2030-01-01", issuer := "US Treasury" }

/-- A sample confirmed record. -/
def axeX : Axe :=
  { id := "x1", isin := "US0000000000", description := "US Treasury 1% 2030"
    maturity := "2030-01-01", issuer := "US Treasury"
    side := .Bid, quantity := 5, status := .ACTIVE, lastUpdate := 0 }

/-- A view state holding just `axeX`, with no drafts. -/
def sA : CompState := { axes := [axeX], pendingEdits := [], pinnedRow := DEFAULT_PINNED_ROW }

/-- A create-or-update request carrying an identifier unknown to the store. -/
def reqGhost : CreateOrUpdateAxeRequest :=
  { id := some "ghost", isin := "US0000000000", side := .Bid, quantity := 1000000 }

/-- The create request issued by the pinned row for `instr0` at its default
side and quantity. -/
def reqCreate : CreateOrUpdateAxeRequest :=
  { id := none, isin := "US0000000000", side := .Bid, quantity := 1000000 }

/-- The record the store creates for `reqCreate` under its own fresh id. -/
def axeK2 : Axe :=
  { id := "K2", isin := "US0000000000", description := "US Treasury 1% 2030"
    maturity := "2030-01-01", issuer := "US Treasury"
    side := .Bid, quantity := 1000000, status := .ACTIVE, lastUpdate := 3 }

/-- A view trace: pick an instrument, create it from the pinned row under the
optimistic client id `K`, draft a quantity edit on the new row, then receive
the store's confirmation broadcast, which carries the server id `K2` instead
of `K`. -/
def cexOps : List CompOp :=
  [ .selectPinnedInstrument instr0
  , .createPinned "K" 1
  , .cellEdit "K" (.quantity 2)
  , .broadcastArrive [axeK2] ]

/-- The sample record in paused state. -/
def axePaused : Axe := { axeX with status := .PAUSED }

/-- A store holding one paused record and no listeners. -/
def sPaused : ServiceState := { axes := [axePaused], subs := [] }

/-- A view state holding `axeX` with a pending quantity draft on it. -/
def sB : CompState :=
  { axes := [axeX]
    pendingEdits := [("x1", { side := none, quantity := some 9 })]
    pinnedRow := DEFAULT_PINNED_ROW }

/-- The candidate draft computed by `onCellValueChanged`:
`{ ...existing, [field]: event.newValue }` over the present entry (or the
empty draft). -/
def candidateEdit (s : CompState) (id : String) (edit : CellEdit) : PendingEdit :=
  applyCellEdit ((lookupPE s.pendingEdits id).getD { side := none, quantity := none }) edit

/-- The auto-clear condition of `onCellValueChanged`: after the edit the
effective side and the effective quantity both equal the confirmed values. -/
abbrev editMatchesConfirmed (upd : PendingEdit) (a : Axe) : Prop :=
  upd.side.getD a.side = a.side ∧ upd.quantity.getD a.quantity = a.quantity

/-! ### Helper lemmas -/

theorem mapHas_eq_isSome (axes : List Axe) (id : String) :
    mapHas axes id = (mapGet axes id).isSome := by
  induction axes with
  | nil => rfl
  | cons hd tl ih =>
    simp only [mapHas, mapGet, List.any_cons] at ih ⊢
    cases hb : (hd.id == id)
    · rw [List.find?_cons_of_neg (p := fun (x : Axe) => x.id == id) _ (by simp [hb]), Bool.false_or]
      exact ih
    · rw [List.find?_cons_of_pos (p := fun (x : Axe) => x.id == id) _ hb, Bool.true_or]
      rfl

theorem mapGet_some_spec (axes : List Axe) (id : String) (a : Axe)
    (h : mapGet axes id = some a) : a.id = id ∧ a ∈ axes := by
  unfold mapGet at h
  refine ⟨?_, List.mem_of_find?_eq_some h⟩
  have h1 := List.find?_some h
  simpa using h1

theorem mapGet_map_update (axes : List Axe) (id : String) (g : Axe → Axe)
    (hg : ∀ x, (g x).id = x.id) (a : Axe) (h : mapGet axes id = some a) :
    mapGet (axes.map (fun x => if x.id = id then g x else x)) id = some (g a) := by
  induction axes with
  | nil => simp [mapGet] at h
  | cons hd tl ih =>
    simp only [mapGet] at h ⊢
    by_cases hhd : hd.id = id
    · rw [List.find?_cons_of_pos (p := fun (x : Axe) => x.id == id) _ (by simp [hhd])] at h
      cases h
      rw [List.map_cons, if_pos hhd, List.find?_cons_of_pos (p := fun (x : Axe) => x.id == id) _ (by simp [hg, hhd])]
    · rw [List.find?_cons_of_neg (p := fun (x : Axe) => x.id == id) _ (by simp [hhd])] at h
      rw [List.map_cons, if_neg hhd, List.find?_cons_of_neg (p := fun (x : Axe) => x.id == id) _ (by simp [hhd])]
      exact ih h

theorem map_update_ids (axes : List Axe) (id : String) (g : Axe → Axe)
    (hg : ∀ x, (g x).id = x.id) :
    (axes.map (fun a => if a.id = id then g a else a)).map Axe.id = axes.map Axe.id := by
  induction axes with
  | nil => rfl
  | cons hd tl ih =>
    by_cases h : hd.id = id <;> simp [h, hg, ih]

theorem lookupPE_erasePE_self (pe : PendingEdits) (id : String) :
    lookupPE (erasePE pe id) id = none := by
  induction pe with
  | nil => rfl
  | cons hd tl ih =>
    by_cases h : hd.1 = id
    · simpa [erasePE, List.filter_cons, h] using ih
    · simpa [erasePE, List.filter_cons, h, lookupPE] using ih

theorem lookupPE_eq_none_of_any_eq_false (pe : PendingEdits) (id : String)
    (h : pe.any (fun p => p.1 == id) = false) : lookupPE pe id = none := by
  induction pe with
  | nil => rfl
  | cons hd tl ih =>
    simp only [List.any_cons, Bool.or_eq_false_iff, beq_eq_false_iff_ne] at h
    simp [lookupPE, h.1]
    exact ih h.2

theorem lookupPE_append_right (pe1 pe2 : PendingEdits) (id : String)
    (h : lookupPE pe1 id = none) :
    lookupPE (pe1 ++ pe2) id = lookupPE pe2 id := by
  induction pe1 with
  | nil => rfl
  | cons hd tl ih =>
    by_cases hhd : hd.1 = id
    · simp [lookupPE, hhd] at h
    · simp only [lookupPE, hhd, if_neg, ite_false, List.cons_append] at h ⊢
      simp [lookupPE, hhd]
      exact ih h

theorem lookupPE_map_overwrite (pe : PendingEdits) (id : String) (v : PendingEdit)
    (h : pe.any (fun p => p.1 == id) = true) :
    lookupPE (pe.map (fun p => if p.1 = id then (id, v) else p)) id = some v := by
  induction pe with
  | nil => simp at h
  | cons hd tl ih =>
    obtain ⟨k, w⟩ := hd
    by_cases hhd : k = id
    · rw [List.map_cons, if_pos hhd]
      simp [lookupPE]
    · rw [List.map_cons, if_neg hhd]
      simp only [List.any_cons, Bool.or_eq_true, beq_iff_eq] at h
      simp only [lookupPE, hhd, ite_false, if_neg]
      refine ih ?_
      rcases h with h | h
      · exact absurd h hhd
      · exact h

theorem lookupPE_insertPE_self (pe : PendingEdits) (id : String) (v : PendingEdit) :
    lookupPE (insertPE pe id v) id = some v := by
  unfold insertPE
  by_cases h : pe.any (fun p => p.1 == id) = true
  · rw [if_pos h]
    exact lookupPE_map_overwrite pe id v h
  · rw [if_neg h]
    have h2 : pe.any (fun p => p.1 == id) = false := by
      cases hb : pe.any (fun p => p.1 == id)
      · rfl
      · exact absurd hb h
    rw [lookupPE_append_right _ _ _ (lookupPE_eq_none_of_any_eq_false pe id h2)]
    simp [lookupPE]

theorem mem_peKeys_erase (pe : PendingEdits) (id k : String)
    (h : k ∈ peKeys (erasePE pe id)) : k ∈ peKeys pe := by
  simp only [peKeys, List.mem_map] at h ⊢
  obtain ⟨p, hp, rfl⟩ := h
  exact ⟨p, List.mem_of_mem_filter hp, rfl⟩

theorem mem_peKeys_insert (pe : PendingEdits) (id : String) (v : PendingEdit)
    (k : String) (h : k ∈ peKeys (insertPE pe id v)) : k = id ∨ k ∈ peKeys pe := by
  simp only [peKeys, insertPE] at h
  split at h
  · simp only [List.map_map, List.mem_map, Function.comp] at h
    obtain ⟨p, hp, hk⟩ := h
    by_cases hpid : p.1 = id
    · left
      simp [hpid] at hk
      exact hk.symm
    · right
      simp [hpid] at hk
      exact List.mem_map.2 ⟨p, hp, hk⟩
  · simp only [List.map_append, List.mem_append, List.map_cons, List.map_nil,
      List.mem_cons, List.not_mem_nil, or_false] at h
    rcases h with h | h
    · right; exact h
    · left; exact h

theorem mem_ids_filter_ne (axes : List Axe) (id nid : String)
    (h : id ∈ axes.map Axe.id) (hne : id ≠ nid) :
    id ∈ (axes.filter (fun a => a.id != nid)).map Axe.id := by
  simp only [List.mem_map] at h ⊢
  obtain ⟨a, ha, rfl⟩ := h
  exact ⟨a, List.mem_filter.2 ⟨ha, by simpa [bne_iff_ne] using hne⟩, rfl⟩

theorem map_overwrite_ids (axes : List Axe) (id : String) (A : Axe) (hA : A.id = id) :
    (axes.map (fun x => if x.id = id then A else x)).map Axe.id
      = axes.map Axe.id := by
  induction axes with
  | nil => rfl
  | cons hd tl ih => by_cases h : hd.id = id <;> simp [h, hA, ih]

theorem overlayPendingEdit_id (a : Axe) (pe : Option PendingEdit) :
    (overlayPendingEdit a pe).id = a.id := by
  cases pe <;> rfl

theorem mem_peKeys_erase_ne (pe : PendingEdits) (id k : String)
    (h : k ∈ peKeys (erasePE pe id)) : k ≠ id := by
  simp only [peKeys, List.mem_map] at h
  obtain ⟨p, hp, rfl⟩ := h
  have := List.of_mem_filter hp
  simpa [bne_iff_ne] using this

theorem listenersInSync_broadcast (t : ServiceState) : ListenersInSync (broadcast t) := by
  intro held hm
  simp only [broadcast, getAxesArray, List.mem_map] at hm ⊢
  obtain ⟨_, _, rfl⟩ := hm
  rfl

theorem createOrUpdateAxe_ok_sync (instruments : List BondInstrument)
    (request : CreateOrUpdateAxeRequest) (newId : String) (now : Nat)
    (s s1 : ServiceState) (axe : Axe)
    (h : createOrUpdateAxe instruments request newId now s = .ok (s1, axe)) :
    ListenersInSync s1 := by
  unfold createOrUpdateAxe at h
  cases hf : findInstrument instruments request.isin with
  | none =>
    rw [hf] at h
    exact Except.noConfusion h
  | some instrument =>
    rw [hf] at h
    simp only [Except.ok.injEq, Prod.mk.injEq] at h
    obtain ⟨hs1, -⟩ := h
    rw [← hs1]
    exact listenersInSync_broadcast _

theorem setStatus_ok_sync (id : String) (status : AxeStatus) (now : Nat)
    (s s1 : ServiceState) (h : setStatus id status now s = .ok s1) :
    ListenersInSync s1 := by
  unfold setStatus at h
  cases hg : mapGet s.axes id with
  | none =>
    rw [hg] at h
    exact Except.noConfusion h
  | some a =>
    rw [hg] at h
    simp only [Except.ok.injEq] at h
    rw [← h]
    exact listenersInSync_broadcast _

theorem deleteAxe_ok_sync (id : String) (s s1 : ServiceState)
    (h : deleteAxe id s = .ok s1) : ListenersInSync s1 := by
  unfold deleteAxe at h
  by_cases hb : mapHas s.axes id = true
  · rw [if_pos hb] at h
    simp only [Except.ok.injEq] at h
    rw [← h]
    exact listenersInSync_broadcast _
  · rw [if_neg hb] at h
    exact Except.noConfusion h

theorem listenersInSync_step (instruments : List BondInstrument) (op : ServiceOp)
    (s : ServiceState) (h : ListenersInSync s) :
    ListenersInSync (applyServiceOp instruments op s) := by
  cases op with
  | subscribeOp =>
    intro held hm
    simp only [applyServiceOp, subscribe, getAxesArray] at hm ⊢
    rcases List.mem_append.1 hm with hmem | hmem
    · exact h held hmem
    · rw [List.mem_singleton] at hmem
      exact hmem
  | unsubscribeOp i =>
    intro held hm
    simp only [applyServiceOp, unsubscribe, getAxesArray] at hm ⊢
    exact h held (List.eraseIdx_subset _ _ hm)
  | createOrUpdate request newId now =>
    simp only [applyServiceOp]
    cases hr : createOrUpdateAxe instruments request newId now s with
    | ok v =>
      obtain ⟨s1, axe⟩ := v
      exact createOrUpdateAxe_ok_sync instruments request newId now s s1 axe hr
    | error e => exact h
  | pause id now =>
    simp only [applyServiceOp]
    cases hr : pauseAxe id now s with
    | ok s1 => exact setStatus_ok_sync id .PAUSED now s s1 hr
    | error e => exact h
  | resume id now =>
    simp only [applyServiceOp]
    cases hr : resumeAxe id now s with
    | ok s1 => exact setStatus_ok_sync id .ACTIVE now s s1 hr
    | error e => exact h
  | block id now =>
    simp only [applyServiceOp]
    cases hr : blockAxe id now s with
    | ok s1 => exact setStatus_ok_sync id .BLOCKED now s s1 hr
    | error e => exact h
  | unblock id now =>
    simp only [applyServiceOp]
    cases hr : unblockAxe id now s with
    | ok s1 => exact setStatus_ok_sync id .ACTIVE now s s1 hr
    | error e => exact h
  | delete id =>
    simp only [applyServiceOp]
    cases hr : deleteAxe id s with
    | ok s1 => exact deleteAxe_ok_sync id s s1 hr
    | error e => exact h

/-! ### Claim theorems -/

/-- C10: for every loaded directory and query, a query shorter than 2
characters yields the empty result, and otherwise the result is exactly the
instruments whose code or description contains the query case-insensitively,
capped at 50 entries. -/
theorem searchInstruments_contract (instruments : List BondInstrument) (query : String) :
    searchInstruments instruments query = searchSpec instruments query
      ∧ (searchInstruments instruments query).length ≤ 50 := by
  constructor
  · unfold searchInstruments searchSpec
    by_cases h : query.length < 2
    · rw [if_pos h, if_neg (by omega)]
    · rw [if_neg h, if_pos (by omega)]
  · unfold searchInstruments
    by_cases h : query.length < 2
    · simp [h]
    · rw [if_neg h]
      exact List.length_take_le 50 _

/-- C1: merge precedence of the rendered row list: the rendered list is
index-aligned with the confirmed snapshot; a record without a Pending Edit is
rendered unchanged, and a record with a Pending Edit is rendered as the
confirmed record with the drafted side and/or quantity overlaid, undrafted
fields keeping the confirmed value. -/
theorem displayData_merge_precedence (s : CompState) (i : Nat)
    (h : i < s.axes.length) (h2 : i < (displayData s).length) :
    (displayData s).length = s.axes.length
      ∧ (lookupPE s.pendingEdits (s.axes.get ⟨i, h⟩).id = none →
          (displayData s).get ⟨i, h2⟩ = s.axes.get ⟨i, h⟩)
      ∧ (∀ e, lookupPE s.pendingEdits (s.axes.get ⟨i, h⟩).id = some e →
          (displayData s).get ⟨i, h2⟩ =
            { s.axes.get ⟨i, h⟩ with
                side := e.side.getD (s.axes.get ⟨i, h⟩).side
                quantity := e.quantity.getD (s.axes.get ⟨i, h⟩).quantity }) := by
  refine ⟨by simp [displayData], ?_, ?_⟩
  · intro hnone
    simp only [List.get_eq_getElem] at hnone ⊢
    simp [displayData, overlayPendingEdit, hnone]
  · intro e he
    simp only [List.get_eq_getElem] at he ⊢
    simp [displayData, overlayPendingEdit, he]

/-- Witness for C1 at the concrete state `sA` and row 0. -/
theorem displayData_merge_precedence_witness :
    0 < sA.axes.length ∧ 0 < (displayData sA).length
      ∧ (displayData sA).length = sA.axes.length :=
  ⟨by decide, by decide, (displayData_merge_precedence sA 0 (by decide) (by decide)).1⟩

/-- C7: every status command and delete against an unknown identifier rejects
with the not-found error, and the store state (record map and every
subscriber's held snapshot) is left untouched, so no broadcast is
delivered. -/
theorem notFound_commands_atomic (s : ServiceState) (id : String) (now : Nat)
    (h : mapGet s.axes id = none) :
    pauseAxe id now s = .error (.axeNotFound id)
      ∧ resumeAxe id now s = .error (.axeNotFound id)
      ∧ blockAxe id now s = .error (.axeNotFound id)
      ∧ unblockAxe id now s = .error (.axeNotFound id)
      ∧ deleteAxe id s = .error (.axeNotFound id)
      ∧ (∀ instruments,
          applyServiceOp instruments (.pause id now) s = s
          ∧ applyServiceOp instruments (.resume id now) s = s
          ∧ applyServiceOp instruments (.block id now) s = s
          ∧ applyServiceOp instruments (.unblock id now) s = s
          ∧ applyServiceOp instruments (.delete id) s = s) := by
  have hs : ∀ st, setStatus id st now s = .error (.axeNotFound id) := by
    intro st
    unfold setStatus
    rw [h]
  have hhas : mapHas s.axes id = false := by
    rw [mapHas_eq_isSome, h]
    rfl
  have hdel : deleteAxe id s = .error (.axeNotFound id) := by
    unfold deleteAxe
    rw [hhas]
    simp
  refine ⟨hs _, hs _, hs _, hs _, hdel, ?_⟩
  intro instruments
  refine ⟨?_, ?_, ?_, ?_, ?_⟩ <;>
    simp [applyServiceOp, pauseAxe, resumeAxe, blockAxe, unblockAxe, hs, hdel]

/-- Witness for C7: deleting an unknown id on the empty store rejects. -/
theorem notFound_commands_atomic_witness :
    mapGet initServiceState.axes "zzz" = none
      ∧ deleteAxe "zzz" initServiceState = .error (.axeNotFound "zzz") :=
  ⟨by decide, (notFound_commands_atomic initServiceState "zzz" 0 (by decide)).2.2.2.2.1⟩

/-- C9: the store does not enforce the status state machine: on any record
present in the map, whatever its current status, `pauseAxe`, `resumeAxe`,
`blockAxe` and `unblockAxe` all succeed and unconditionally set the status to
PAUSED, ACTIVE, BLOCKED and ACTIVE respectively. -/
theorem status_commands_unconditional (s : ServiceState) (id : String) (now : Nat)
    (a : Axe) (h : mapGet s.axes id = some a) :
    (∃ s1, pauseAxe id now s = .ok s1 ∧ statusOf s1 id = some .PAUSED)
      ∧ (∃ s1, resumeAxe id now s = .ok s1 ∧ statusOf s1 id = some .ACTIVE)
      ∧ (∃ s1, blockAxe id now s = .ok s1 ∧ statusOf s1 id = some .BLOCKED)
      ∧ (∃ s1, unblockAxe id now s = .ok s1 ∧ statusOf s1 id = some .ACTIVE) := by
  have key : ∀ st : AxeStatus,
      ∃ s1, setStatus id st now s = .ok s1 ∧ statusOf s1 id = some st := by
    intro st
    unfold setStatus
    rw [h]
    refine ⟨_, rfl, ?_⟩
    show (mapGet (s.axes.map fun a =>
      if a.id = id then { a with status := st, lastUpdate := now } else a) id).map Axe.status
        = some st
    rw [mapGet_map_update s.axes id
      (fun a => { a with status := st, lastUpdate := now }) (fun _ => rfl) a h]
    rfl
  exact ⟨key .PAUSED, key .ACTIVE, key .BLOCKED, key .ACTIVE⟩

/-- Witness for C9: `blockAxe` on a PAUSED record (a transition the spec's
table does not offer) succeeds and yields BLOCKED. -/
theorem status_commands_unconditional_witness :
    mapGet sPaused.axes "x1" = some axePaused
      ∧ (∃ s1, blockAxe "x1" 9 sPaused = .ok s1 ∧ statusOf s1 "x1" = some .BLOCKED) :=
  ⟨by decide, (status_commands_unconditional sPaused "x1" 9 axePaused (by decide)).2.2.1⟩

/-- C2 counterexample: a request whose identifier is present but unknown to
the store creates the record under the request's own identifier `ghost`; the
freshly generated identifier `fresh` is not used, so no new identifier is
generated in this case. -/
theorem createOrUpdateAxe_unknown_id_cex :
    ((createOrUpdateAxe [instr0] reqGhost "fresh" 7 initServiceState).toOption.map
        (fun r => r.2.id)) = some "ghost"
      ∧ "ghost" ≠ "fresh" := by
  decide

/-- C2 (amended): whenever the instrument code resolves, `createOrUpdateAxe`
succeeds; the record's identifier is the request's identifier when one is
supplied (known or not, empty or not) and the generated identifier only when
none is; a known non-empty identifier updates side, quantity and the
instrument-derived fields in place (the map's key sequence is unchanged)
preserving the existing status; an absent identifier, an unknown identifier,
or the empty-string identifier (JS truthiness: `!!""` is false even when a
record is keyed `""`) yields status Active; in every case the timestamp is
refreshed and the full snapshot is delivered to every subscriber. -/
theorem createOrUpdateAxe_postcondition (instruments : List BondInstrument)
    (request : CreateOrUpdateAxeRequest) (newId : String) (now : Nat)
    (s : ServiceState) (instrument : BondInstrument)
    (hres : findInstrument instruments request.isin = some instrument) :
    ∃ s1 axe, createOrUpdateAxe instruments request newId now s = .ok (s1, axe)
      ∧ axe.id = request.id.getD newId
      ∧ axe.lastUpdate = now
      ∧ axe.side = request.side
      ∧ axe.quantity = request.quantity
      ∧ axe.isin = instrument.isin
      ∧ axe.description = instrument.description
      ∧ axe.maturity = instrument.maturity
      ∧ axe.issuer = instrument.issuer
      ∧ (∀ rid old, request.id = some rid → rid ≠ "" → mapGet s.axes rid = some old →
          axe.status = old.status ∧ s1.axes.map Axe.id = s.axes.map Axe.id)
      ∧ ((request.id = none
            ∨ (∃ rid, request.id = some rid ∧ mapGet s.axes rid = none)
            ∨ request.id = some "") →
          axe.status = .ACTIVE)
      ∧ s1.axes = mapSet s.axes axe
      ∧ s1.subs = s.subs.map (fun _ => mapSet s.axes axe) := by
  cases hrid : request.id with
  | none =>
    unfold createOrUpdateAxe
    rw [hres, hrid]
    refine ⟨_, _, rfl, rfl, rfl, rfl, rfl, rfl, rfl, rfl, rfl, ?_, fun _ => rfl, rfl, rfl⟩
    intro rid old hsome _ _
    exact Option.noConfusion hsome
  | some rid =>
    unfold createOrUpdateAxe
    rw [hres, hrid]
    by_cases hrid0 : rid = ""
    · subst hrid0
      refine ⟨_, _, rfl, rfl, rfl, rfl, rfl, rfl, rfl, rfl, rfl, ?_, fun _ => rfl, rfl, rfl⟩
      intro rid2 old hsome hne _
      cases hsome
      exact absurd rfl hne
    · have hb : (rid != "") = true := by
        simpa [bne_iff_ne] using hrid0
      cases hg : mapGet s.axes rid with
      | none =>
        have hhas : mapHas s.axes rid = false := by
          rw [mapHas_eq_isSome, hg]
          rfl
        refine ⟨_, _, rfl, rfl, rfl, rfl, rfl, rfl, rfl, rfl, rfl, ?_, ?_, rfl, rfl⟩
        · intro rid2 old hsome _ hold
          cases hsome
          rw [hg] at hold
          exact Option.noConfusion hold
        · intro _
          simp [hb, hhas]
      | some old =>
        have hhas : mapHas s.axes rid = true := by
          rw [mapHas_eq_isSome, hg]
          rfl
        refine ⟨_, _, rfl, rfl, rfl, rfl, rfl, rfl, rfl, rfl, rfl, ?_, ?_, rfl, rfl⟩
        · intro rid2 old2 hsome _ hold
          cases hsome
          rw [hg] at hold
          cases hold
          constructor
          · simp [hb, hhas, hg]
          · simp only [broadcast, getAxesArray]
            simp only [mapSet, Option.getD_some, hhas, if_pos, ite_true]
            exact map_overwrite_ids s.axes rid _ rfl
        · intro hcon
          rcases hcon with hcon | ⟨rid2, hsome, hnone⟩ | hcon
          · exact Option.noConfusion hcon
          · cases hsome
            rw [hg] at hnone
            exact Option.noConfusion hnone
          · injection hcon with hcon2
            exact absurd hcon2 hrid0

/-- Witness for C2 (amended) at a concrete resolving request. -/
theorem createOrUpdateAxe_postcondition_witness :
    findInstrument [instr0] reqCreate.isin = some instr0
      ∧ (∃ s1 axe, createOrUpdateAxe [instr0] reqCreate "K2" 3 initServiceState
          = .ok (s1, axe)) := by
  refine ⟨by decide, ?_⟩
  obtain ⟨s1, axe, h, -⟩ :=
    createOrUpdateAxe_postcondition [instr0] reqCreate "K2" 3 initServiceState instr0 (by decide)
  exact ⟨s1, axe, h⟩

/-- C3 counterexample: `axeX` is in the rendered list, is optimistically
removed by `handleDelete`, and after the store rejects the delete the failure
path leaves it removed — the record does not reappear. -/
theorem delete_failure_no_rollback_cex :
    axeX ∈ displayData sA
      ∧ axeX ∉ displayData (handleDeleteOnError "x1" (handleDelete "x1" sA)) := by
  decide

/-- C3 (amended): on a rejected delete the optimistic removal persists — the
failure handler leaves the state exactly as the optimistic removal left it
and the record stays absent from the rendered list, only an error being
surfaced; on a rejected create, the optimistically-added record is removed
again, restoring the previous record list. -/
theorem rollback_on_failure_amended (s : CompState) (id newId : String) (now : Nat)
    (hfresh : ∀ a ∈ s.axes, a.id ≠ newId) :
    handleDeleteOnError id (handleDelete id s) = handleDelete id s
      ∧ (∀ r ∈ displayData (handleDeleteOnError id (handleDelete id s)), r.id ≠ id)
      ∧ (handleCreatePinnedOnError newId (handleCreatePinned newId now s).1).axes = s.axes := by
  have hfilter : s.axes.filter (fun a => a.id != newId) = s.axes :=
    List.filter_eq_self.mpr (fun a ha => by simpa [bne_iff_ne] using hfresh a ha)
  refine ⟨rfl, ?_, ?_⟩
  · intro r hr
    simp only [handleDeleteOnError, displayData, List.mem_map] at hr
    obtain ⟨a, ha, rfl⟩ := hr
    rw [overlayPendingEdit_id]
    have := List.of_mem_filter (p := fun (x : Axe) => x.id != id) ha
    simpa [bne_iff_ne] using this
  · unfold handleCreatePinned
    by_cases h1 : s.pinnedRow.isin = ""
    · rw [if_pos h1]
      exact hfilter
    · rw [if_neg h1]
      by_cases h2 : s.pinnedRow.quantity < 1
      · rw [if_pos h2]
        exact hfilter
      · rw [if_neg h2]
        simp only [handleCreatePinnedOnError, clearPinnedRow]
        rw [List.filter_cons]
        simp only [bne_self_eq_false, Bool.false_eq_true, if_neg, ite_false]
        exact hfilter

/-- Witness for C3 (amended): the create half at the concrete state `sA`. -/
theorem rollback_on_failure_amended_witness :
    (∀ a ∈ sA.axes, a.id ≠ "n1")
      ∧ (handleCreatePinnedOnError "n1" (handleCreatePinned "n1" 4 sA).1).axes = sA.axes :=
  ⟨by decide, (rollback_on_failure_amended sA "x1" "n1" 4 (by decide)).2.2⟩

/-- C4: a cell edit on an existing row compares the candidate draft against
the confirmed record; when the effective side and quantity both equal the
confirmed values the entire Pending Edit entry is removed, otherwise the
entry is inserted or updated with the edited field; the snapshot itself is
untouched. -/
theorem cellEdit_draft_autoclear (s : CompState) (id : String) (edit : CellEdit)
    (a : Axe) (ha : mapGet s.axes id = some a) :
    (onCellValueChanged id edit s).axes = s.axes
      ∧ (editMatchesConfirmed (candidateEdit s id edit) a →
          (onCellValueChanged id edit s).pendingEdits = erasePE s.pendingEdits id
            ∧ lookupPE (onCellValueChanged id edit s).pendingEdits id = none)
      ∧ (¬ editMatchesConfirmed (candidateEdit s id edit) a →
          (onCellValueChanged id edit s).pendingEdits
              = insertPE s.pendingEdits id (candidateEdit s id edit)
            ∧ lookupPE (onCellValueChanged id edit s).pendingEdits id
              = some (candidateEdit s id edit)) := by
  by_cases hc : editMatchesConfirmed (candidateEdit s id edit) a
  · have hmain : onCellValueChanged id edit s
        = { s with pendingEdits := erasePE s.pendingEdits id } := by
      unfold onCellValueChanged
      rw [ha]
      exact if_pos hc
    refine ⟨by rw [hmain], fun _ => ⟨by rw [hmain], ?_⟩, fun hn => absurd hc hn⟩
    rw [hmain]
    exact lookupPE_erasePE_self s.pendingEdits id
  · have hmain : onCellValueChanged id edit s
        = { s with pendingEdits := insertPE s.pendingEdits id (candidateEdit s id edit) } := by
      unfold onCellValueChanged
      rw [ha]
      exact if_neg hc
    refine ⟨by rw [hmain], fun hyes => absurd hyes hc, fun _ => ⟨by rw [hmain], ?_⟩⟩
    rw [hmain]
    exact lookupPE_insertPE_self s.pendingEdits id _

/-- Witness for C4: drafting a changed quantity records the entry, and
editing it back to the confirmed quantity removes the entry entirely. -/
theorem cellEdit_draft_autoclear_witness :
    mapGet sA.axes "x1" = some axeX
      ∧ lookupPE (onCellValueChanged "x1" (.quantity 7) sA).pendingEdits "x1"
          = some (candidateEdit sA "x1" (.quantity 7))
      ∧ lookupPE (onCellValueChanged "x1" (.quantity 5)
            (onCellValueChanged "x1" (.quantity 7) sA)).pendingEdits "x1" = none := by
  refine ⟨by decide, ?_, ?_⟩
  · exact ((cellEdit_draft_autoclear sA "x1" (.quantity 7) axeX (by decide)).2.2 (by decide)).2
  · exact ((cellEdit_draft_autoclear (onCellValueChanged "x1" (.quantity 7) sA)
      "x1" (.quantity 5) axeX (by decide)).2.1 (by decide)).2

/-- C5: saving a row with a Pending Edit issues one update command carrying
all fields, drafted fields from the draft and undrafted fields from the
confirmed record, applies the same values optimistically to the local copy,
and removes the Pending Edit entry in the very state in which the command is
issued, so the entry is absent while the request is in flight. -/
theorem handleSaveRow_protocol (s : CompState) (id : String) (now : Nat)
    (e : PendingEdit) (a : Axe)
    (hpe : lookupPE s.pendingEdits id = some e)
    (ha : mapGet s.axes id = some a) :
    (handleSaveRow id now s).2
        = some { id := some id, isin := a.isin
                 side := e.side.getD a.side, quantity := e.quantity.getD a.quantity }
      ∧ (handleSaveRow id now s).1.pendingEdits = erasePE s.pendingEdits id
      ∧ lookupPE (handleSaveRow id now s).1.pendingEdits id = none
      ∧ (handleSaveRow id now s).1.axes
          = s.axes.map (fun x =>
              if x.id = id then
                { x with side := e.side.getD a.side
                         quantity := e.quantity.getD a.quantity, lastUpdate := now }
              else x)
      ∧ mapGet (handleSaveRow id now s).1.axes id
          = some { a with side := e.side.getD a.side
                          quantity := e.quantity.getD a.quantity, lastUpdate := now } := by
  have h0 : handleSaveRow id now s
      = ({ s with
            axes := s.axes.map (fun x =>
              if x.id = id then
                { x with side := e.side.getD a.side
                         quantity := e.quantity.getD a.quantity, lastUpdate := now }
              else x)
            pendingEdits := erasePE s.pendingEdits id },
         some { id := some id, isin := a.isin
                side := e.side.getD a.side, quantity := e.quantity.getD a.quantity }) := by
    unfold handleSaveRow
    rw [hpe, ha]
  refine ⟨by rw [h0], by rw [h0], ?_, by rw [h0], ?_⟩
  · rw [h0]
    exact lookupPE_erasePE_self s.pendingEdits id
  · rw [h0]
    exact mapGet_map_update s.axes id
      (fun x => { x with side := e.side.getD a.side
                         quantity := e.quantity.getD a.quantity, lastUpdate := now })
      (fun _ => rfl) a ha

/-- Witness for C5 at the drafted state `sB`. -/
theorem handleSaveRow_protocol_witness :
    lookupPE sB.pendingEdits "x1" = some { side := none, quantity := some 9 }
      ∧ mapGet sB.axes "x1" = some axeX
      ∧ lookupPE (handleSaveRow "x1" 8 sB).1.pendingEdits "x1" = none :=
  ⟨by decide, by decide,
    (handleSaveRow_protocol sB "x1" 8 { side := none, quantity := some 9 } axeX
      (by decide) (by decide)).2.2.1⟩

/-- C8: in every state reachable by any sequence of store events from the
empty store, every registered listener holds exactly the store's current full
record list — subscribing hands the new listener the current snapshot at
once, and every successful mutation re-delivers the whole list to all
listeners. -/
theorem snapshot_broadcast_contract (instruments : List BondInstrument)
    (ops : List ServiceOp) : ListenersInSync (runService instruments ops) := by
  have hinit : ListenersInSync initServiceState := by
    intro held hm
    exact absurd hm (List.not_mem_nil held)
  suffices hgen : ∀ (l : List ServiceOp) (t : ServiceState), ListenersInSync t →
      ListenersInSync (l.foldl (fun acc op => applyServiceOp instruments op acc) t) from
    hgen ops initServiceState hinit
  intro l
  induction l with
  | nil => exact fun t ht => ht
  | cons hd tl ih =>
    exact fun t ht => ih _ (listenersInSync_step instruments hd t ht)

/-- C6 counterexample: after creating from the pinned row under optimistic
client id `K`, drafting an edit on that row, and then receiving the store's
own confirmation broadcast (which carries the server-generated id `K2`, as
the store model shows), the Pending Edits still key `K` while the held
snapshot no longer contains it — the subset invariant is violated. -/
theorem pendingEdits_subset_cex :
    ((createOrUpdateAxe [instr0] reqCreate "K2" 3 initServiceState).toOption.map
        (fun r => r.1.axes)) = some [axeK2]
      ∧ "K" ∈ peKeys (runComp cexOps).pendingEdits
      ∧ "K" ∉ (runComp cexOps).axes.map Axe.id := by
  decide

/-- C6 (amended): the subset invariant is preserved by every cell edit, save,
revert, delete, status toggle, pinned-row action and delete-failure rollback;
it is preserved by an incoming broadcast only when the snapshot still carries
every drafted identifier, and by a create-failure rollback only when the
removed optimistic row carries no draft — the code does not prune Pending
Edits on broadcasts, so a create confirmation (which replaces the optimistic
identifier) can break the invariant. -/
theorem pendingEdits_subset_preserved (s : CompState) (op : CompOp)
    (hinv : PESubset s) (hsafe : SafeOp s op) :
    PESubset (applyCompOp op s) := by
  cases op with
  | cellEdit id edit =>
    cases hg : mapGet s.axes id with
    | none =>
      have he : onCellValueChanged id edit s = s := by
        unfold onCellValueChanged
        rw [hg]
      intro k hk
      simp only [applyCompOp, he] at hk ⊢
      exact hinv k hk
    | some a =>
      by_cases hc : editMatchesConfirmed (candidateEdit s id edit) a
      · have he : onCellValueChanged id edit s
            = { s with pendingEdits := erasePE s.pendingEdits id } := by
          unfold onCellValueChanged
          rw [hg]
          exact if_pos hc
        intro k hk
        simp only [applyCompOp, he] at hk ⊢
        exact hinv k (mem_peKeys_erase s.pendingEdits id k hk)
      · have he : onCellValueChanged id edit s
            = { s with pendingEdits := insertPE s.pendingEdits id (candidateEdit s id edit) } := by
          unfold onCellValueChanged
          rw [hg]
          exact if_neg hc
        intro k hk
        simp only [applyCompOp, he] at hk ⊢
        rcases mem_peKeys_insert s.pendingEdits id _ k hk with rfl | hmem
        · obtain ⟨hid, hmem2⟩ := mapGet_some_spec s.axes k a hg
          exact List.mem_map.2 ⟨a, hmem2, hid⟩
        · exact hinv k hmem
  | saveRow id now =>
    cases hpe : lookupPE s.pendingEdits id with
    | none =>
      have he : handleSaveRow id now s = (s, none) := by
        unfold handleSaveRow
        rw [hpe]
      intro k hk
      simp only [applyCompOp, he] at hk ⊢
      exact hinv k hk
    | some e =>
      cases hg : mapGet s.axes id with
      | none =>
        have he : handleSaveRow id now s = (s, none) := by
          unfold handleSaveRow
          rw [hpe, hg]
        intro k hk
        simp only [applyCompOp, he] at hk ⊢
        exact hinv k hk
      | some a =>
        have he : (handleSaveRow id now s).1
            = { s with
                  axes := s.axes.map (fun x =>
                    if x.id = id then
                      { x with side := e.side.getD a.side
                               quantity := e.quantity.getD a.quantity, lastUpdate := now }
                    else x)
                  pendingEdits := erasePE s.pendingEdits id } := by
          unfold handleSaveRow
          rw [hpe, hg]
        intro k hk
        simp only [applyCompOp, he] at hk ⊢
        rw [map_update_ids s.axes id
          (fun x => { x with side := e.side.getD a.side
                             quantity := e.quantity.getD a.quantity, lastUpdate := now })
          (fun _ => rfl)]
        exact hinv k (mem_peKeys_erase s.pendingEdits id k hk)
  | revertRow id =>
    intro k hk
    simp only [applyCompOp, handleRevertRow] at hk ⊢
    exact hinv k (mem_peKeys_erase s.pendingEdits id k hk)
  | deleteRow id =>
    intro k hk
    simp only [applyCompOp, handleDelete] at hk ⊢
    have hne := mem_peKeys_erase_ne s.pendingEdits id k hk
    exact mem_ids_filter_ne s.axes k id
      (hinv k (mem_peKeys_erase s.pendingEdits id k hk)) hne
  | deleteRowFailed id =>
    intro k hk
    simp only [applyCompOp, handleDeleteOnError] at hk ⊢
    exact hinv k hk
  | pauseResume id now =>
    cases hg : mapGet s.axes id with
    | none =>
      have he : handlePauseResume id now s = s := by
        unfold handlePauseResume
        rw [hg]
      intro k hk
      simp only [applyCompOp, he] at hk ⊢
      exact hinv k hk
    | some a =>
      have he : handlePauseResume id now s
          = { s with axes := s.axes.map (fun x =>
              if x.id = id then
                { x with status := if a.status = .PAUSED then .ACTIVE else .PAUSED
                         lastUpdate := now }
              else x) } := by
        unfold handlePauseResume
        rw [hg]
      intro k hk
      simp only [applyCompOp, he] at hk ⊢
      rw [map_update_ids s.axes id
        (fun x => { x with status := if a.status = .PAUSED then .ACTIVE else .PAUSED
                           lastUpdate := now })
        (fun _ => rfl)]
      exact hinv k hk
  | blockUnblock id now =>
    cases hg : mapGet s.axes id with
    | none =>
      have he : handleBlockUnblock id now s = s := by
        unfold handleBlockUnblock
        rw [hg]
      intro k hk
      simp only [applyCompOp, he] at hk ⊢
      exact hinv k hk
    | some a =>
      have he : handleBlockUnblock id now s
          = { s with axes := s.axes.map (fun x =>
              if x.id = id then
                { x with status := if a.status = .BLOCKED then .ACTIVE else .BLOCKED
                         lastUpdate := now }
              else x) } := by
        unfold handleBlockUnblock
        rw [hg]
      intro k hk
      simp only [applyCompOp, he] at hk ⊢
      rw [map_update_ids s.axes id
        (fun x => { x with status := if a.status = .BLOCKED then .ACTIVE else .BLOCKED
                           lastUpdate := now })
        (fun _ => rfl)]
      exact hinv k hk
  | selectPinnedInstrument instrument =>
    intro k hk
    simp only [applyCompOp, updatePinnedRowInstrument] at hk ⊢
    exact hinv k hk
  | createPinned newId now =>
    by_cases h1 : s.pinnedRow.isin = ""
    · intro k hk
      simp only [applyCompOp, handleCreatePinned, h1, ite_true, if_pos] at hk ⊢
      exact hinv k hk
    · by_cases h2 : s.pinnedRow.quantity < 1
      · intro k hk
        simp only [applyCompOp, handleCreatePinned, h1, h2, ite_true, ite_false,
          if_pos, if_neg] at hk ⊢
        exact hinv k hk
      · intro k hk
        simp only [applyCompOp, handleCreatePinned, h1, h2, ite_false, if_neg,
          clearPinnedRow, List.map_cons, List.mem_cons] at hk ⊢
        exact Or.inr (hinv k hk)
  | createPinnedFailed newId =>
    intro k hk
    simp only [applyCompOp, handleCreatePinnedOnError] at hk ⊢
    have hkne : k ≠ newId := by
      intro heq
      exact hsafe (heq ▸ hk)
    exact mem_ids_filter_ne s.axes k newId (hinv k hk) hkne
  | broadcastArrive snapshot =>
    intro k hk
    simp only [applyCompOp] at hk ⊢
    exact hsafe k hk

/-- Witness for C6 (amended): deleting the drafted row at `sB` preserves the
invariant. -/
theorem pendingEdits_subset_preserved_witness :
    PESubset sB ∧ SafeOp sB (.deleteRow "x1")
      ∧ PESubset (applyCompOp (.deleteRow "x1") sB) := by
  have h1 : PESubset sB := by
    unfold PESubset
    decide
  have h2 : SafeOp sB (.deleteRow "x1") := trivial
  exact ⟨h1, h2, pendingEdits_subset_preserved sB (.deleteRow "x1") h1 h2⟩

end Axes
